import Mathlib

/-
Verification of the workspace-colorizer extension core (src/src/extension.ts)
against its natural-language specification.

The TypeScript source is shallowly embedded:
- JS objects with string values (the `workbench.colorCustomizations`
  configuration object and the `folderColors` mapping) are ordered
  association lists `List (String × String)`; `obj[k]` is `objGet`,
  and object-literal spread `{...o, k: v}` is `objSet` (replace in
  place when the key is present, append otherwise).
- The host regular-expression engine is an abstract oracle
  `RegexTest : String → String → Option Bool`; `none` models
  `new RegExp(pat)` throwing (invalid pattern), `some b` models a
  successful compilation whose `.test(s)` returns `b`.
- JS numbers used by `withAlpha` are rationals; `Math.round` rounds
  half toward positive infinity, exactly as Mathlib's `round`.
- The module-level mutable variables (`originalWorkspaceColors`,
  `lastAppliedKey`) and the externally visible configuration are a
  record `SysState` threaded explicitly; `applyOnce` additionally
  reports whether it performed a configuration write.
-/

namespace WorkspaceColorizer

/-- A configuration object: ordered association of attribute names to string
values, modelling a JS object with unique keys in insertion order. -/
abbrev Config := List (String × String)

/-- The `folderColors` mapping (`Record<string, string>` in the source). -/
abbrev ColorMap := List (String × String)

/-- JS property read `o[k]`: the value of the entry with key `k`, if any. -/
def objGet (o : Config) (k : String) : Option String :=
  (o.find? (fun p => p.1 == k)).map Prod.snd

/-- JS object-literal spread `{...o, k: v}` restricted to one key: if `k` is
already present its value is replaced at its original position, otherwise the
entry `(k, v)` is appended. -/
def objSet (o : Config) (k v : String) : Config :=
  if o.any (fun p => p.1 == k) then
    o.map (fun p => if p.1 == k then (k, v) else p)
  else o ++ [(k, v)]

/-- The regex metacharacters recognised by `looksLikeRegex`
(source line 140, the character class of `/[\^\$\.\*\+\?\(\)\[\]\{\}\|]/`). -/
def regexMetachars : List Char :=
  ['^', '$', '.', '*', '+', '?', '(', ')', '[', ']',
   Char.ofNat 123, Char.ofNat 125, '|']

/-- Model of `looksLikeRegex` (source lines 139-141): the string contains at least one
regex metacharacter. -/
def looksLikeRegex (s : String) : Bool :=
  s.data.any (fun c => regexMetachars.contains c)

/-- Result type of `decideDesiredKeyAndColor`: `{ key: string; hex?: string }`. -/
structure ResolvedChoice where
  key : String
  hex : Option String
deriving DecidableEq

/-- Abstract model of the host regular-expression engine: `rt pat s = none`
when `new RegExp(pat)` throws (invalid pattern), and `some b` when the
pattern compiles and `.test(s)` returns `b`. -/
abbrev RegexTest := String → String → Option Bool

/-- The pattern-matching loop of `decideDesiredKeyAndColor` (source lines
127-135): iterate entries in declared order; for a pattern-like key, a
successful compile-and-match returns that entry, a failed compile (the
`try ... catch` swallowing the exception) or a non-match continues with the
next entry; an exhausted loop yields the sentinel choice. -/
def resolveLoop (rt : RegexTest) (folderName : String) : ColorMap → ResolvedChoice
  | [] => ⟨"original", none⟩
  | (pattern, color) :: rest =>
    if looksLikeRegex pattern then
      match rt pattern folderName with
      | some true => ⟨pattern, some color⟩
      | _ => resolveLoop rt folderName rest
    else resolveLoop rt folderName rest

/-- Model of `decideDesiredKeyAndColor` (source lines 115-137). The active editor and
its owning workspace folder are collapsed into `ctx : Option String`: the
folder's display name when an active document belongs to a known workspace
folder, `none` otherwise (no editor, or folder unresolvable). The exact-match
test `if (map[folder.name])` is a JS truthiness test on the looked-up string:
it takes the exact branch only when the value is present and non-empty. -/
def decideDesiredKeyAndColor (rt : RegexTest) (ctx : Option String)
    (map : ColorMap) : ResolvedChoice :=
  match ctx with
  | none => ⟨"original", none⟩
  | some name =>
    match objGet map name with
    | some v => if v = "" then resolveLoop rt name map else ⟨name, some v⟩
    | none => resolveLoop rt name map

/-- Model of `n.toString(16)` for a natural number: lowercase base-16 digits, no
leading zeros, `"0"` for zero (core `Nat.toDigits` has exactly this
behaviour). -/
def natToHex (n : Nat) : String :=
  String.mk (Nat.toDigits 16 n)

/-- JS `Number.prototype.toString(16)` on an integer: a minus sign followed
by the hex digits of the absolute value when negative. -/
def intToString16 : Int → String
  | Int.ofNat n => natToHex n
  | Int.negSucc m => "-" ++ natToHex (m + 1)

/-- JS `String.prototype.padStart(len, c)`. -/
def padStart (s : String) (len : Nat) (c : Char) : String :=
  if s.length < len then String.mk (List.replicate (len - s.length) c) ++ s
  else s

/-- Model of `withAlpha` (source lines 143-147): `Math.round(alpha * 255)`, rendered
in base 16 and left-padded to two characters, is appended when the input has
exactly 7 characters; otherwise the input is returned unchanged. The JS
number `alpha` is modelled as a rational; `Math.round` rounds half toward
positive infinity, which is Mathlib's `round`. -/
def withAlpha (hex : String) (alpha : ℚ) : String :=
  let a : ℤ := round (alpha * 255)
  let aa : String := padStart (intToString16 a) 2 '0'
  if hex.length = 7 then hex ++ aa else hex

/-- The winning condition of the matcher loop, as a Boolean predicate on an
entry: the key is pattern-like and the compiled pattern matches. -/
def loopHit (rt : RegexTest) (folderName : String) (p : String × String) : Bool :=
  looksLikeRegex p.1 && (rt p.1 folderName == some true)

lemma resolveLoop_eq_find (rt : RegexTest) (F : String) (M : ColorMap) :
    resolveLoop rt F M =
      match M.find? (loopHit rt F) with
      | some p => ⟨p.1, some p.2⟩
      | none => ⟨"original", none⟩ := by
  induction M with
  | nil => rfl
  | cons hd tl ih =>
    obtain ⟨p, c⟩ := hd
    rw [resolveLoop, List.find?]
    rcases hl : looksLikeRegex p with _ | _
    · simpa [loopHit, hl] using ih
    · rcases hr : rt p F with _ | b
      · simpa [loopHit, hl, hr] using ih
      · rcases b with _ | _
        · simpa [loopHit, hl, hr] using ih
        · simp [loopHit, hl, hr]

/-- A concrete regex oracle used for instantiations: `"["` is an invalid
pattern (a real `new RegExp("[")` throws), `"^api-.*"` matches exactly the
strings whose first four characters are `"api-"`, and every other pattern compiles but
matches nothing. -/
def rtW : RegexTest := fun pat s =>
  if pat = "[" then none
  else if pat = "^api-.*" then some (s.data.take 4 == "api-".data)
  else some false

/-- C1: when the mapping contains an entry whose key is exactly the folder
name (with a colour value that, per the data model, is a `#RRGGBB` string
and in particular non-empty), `decideDesiredKeyAndColor` returns that exact
entry — regardless of any pattern-like entries that also match the folder
name and regardless of declaration order: exact match takes absolute
precedence over pattern matching. -/
theorem exact_match_precedence (rt : RegexTest) (F v : String) (M : ColorMap)
    (hfind : objGet M F = some v) (hv : v ≠ "") :
    decideDesiredKeyAndColor rt (some F) M = ⟨F, some v⟩ := by
  simp [decideDesiredKeyAndColor, hfind, hv]

/-- Witness for C1: the pattern entry `"^.*"` is declared first and the
oracle matches it against `"sample1"`, yet the exact entry wins. -/
theorem exact_match_precedence_witness :
    objGet [("^.*", "#FF6B6B"), ("sample1", "#1E90FF")] "sample1" = some "#1E90FF" ∧
    "#1E90FF" ≠ "" ∧
    decideDesiredKeyAndColor (fun _ _ => some true) (some "sample1")
      [("^.*", "#FF6B6B"), ("sample1", "#1E90FF")] = ⟨"sample1", some "#1E90FF"⟩ :=
  ⟨by decide, by decide,
    exact_match_precedence (fun _ _ => some true) "sample1" "#1E90FF" _ (by decide) (by decide)⟩

/-- C2: when the mapping has no exact key equal to the folder name, the
result is the first entry in declared order whose key is pattern-like and
whose compiled pattern matches the folder name (a `List.find?` over the
entries); an entry whose pattern fails to compile (`rt _ _ = none`) never
satisfies the winning condition, so it is silently skipped and evaluation
continues with the next entry — the embedding is a total function, so no
exception escapes; when no entry wins, the result is `⟨"original", none⟩`. -/
theorem pattern_first_match (rt : RegexTest) (F : String) (M : ColorMap)
    (hnone : objGet M F = none) :
    decideDesiredKeyAndColor rt (some F) M =
      match M.find? (loopHit rt F) with
      | some p => ⟨p.1, some p.2⟩
      | none => ⟨"original", none⟩ := by
  simp only [decideDesiredKeyAndColor, hnone]
  exact resolveLoop_eq_find rt F M

/-- Witness for C2: the invalid pattern `"["` is declared first and is
skipped; the valid pattern `"^api-.*"` declared after it wins. -/
theorem pattern_first_match_witness :
    objGet [("[", "#111111"), ("^api-.*", "#FF6B6B")] "api-server" = none ∧
    decideDesiredKeyAndColor rtW (some "api-server")
      [("[", "#111111"), ("^api-.*", "#FF6B6B")] = ⟨"^api-.*", some "#FF6B6B"⟩ := by
  refine ⟨by decide, ?_⟩
  rw [pattern_first_match rtW "api-server" _ (by decide)]
  decide

/-- C10: a mapping entry whose colour value is the empty string can never
win by exact match: the truthiness test `if (map[folder.name])` fails on
`""`, so the exact-match step is skipped and the function falls through to
the pattern-matching loop — which may return `⟨"original", none⟩` although
an exact key for the folder name is present. -/
theorem empty_value_skips_exact (rt : RegexTest) (F : String) (M : ColorMap)
    (h : objGet M F = some "") :
    decideDesiredKeyAndColor rt (some F) M = resolveLoop rt F M := by
  simp [decideDesiredKeyAndColor, h]

/-- Witness for C10: the mapping maps `"sample1"` exactly to `""`; even with
an oracle that matches every pattern, the result is the sentinel, because
`"sample1"` is not pattern-like and the exact step was skipped. -/
theorem empty_value_skips_exact_witness :
    objGet [("sample1", "")] "sample1" = some "" ∧
    decideDesiredKeyAndColor (fun _ _ => some true) (some "sample1") [("sample1", "")]
      = ⟨"original", none⟩ := by
  refine ⟨by decide, ?_⟩
  rw [empty_value_skips_exact (fun _ _ => some true) "sample1" _ (by decide)]
  decide

set_option maxRecDepth 4000 in
lemma pad2_natToHex_length : ∀ b : Nat, b ≤ 255 → (padStart (natToHex b) 2 '0').length = 2 := by
  decide

lemma intToString16_nonneg (a : ℤ) (h : 0 ≤ a) : intToString16 a = natToHex a.toNat := by
  cases a with
  | ofNat n => rfl
  | negSucc m => exact absurd h (Int.negSucc_not_nonneg m).mp

lemma round_alpha_nonneg (alpha : ℚ) (h0 : 0 ≤ alpha) : 0 ≤ round (alpha * 255) := by
  rw [round_eq]
  exact Int.le_floor.mpr (by push_cast; nlinarith)

lemma round_alpha_le (alpha : ℚ) (h1 : alpha ≤ 1) : round (alpha * 255) ≤ 255 := by
  rw [round_eq]
  have h := Int.floor_lt.mpr (show (alpha * 255 + 1/2 : ℚ) < ((256:ℤ):ℚ) by push_cast; nlinarith)
  omega

/-- C7: on a 7-character input and an alpha in `[0,1]` (the range of an
opacity), `withAlpha` appends the two-character lowercase hexadecimal
rendering of the byte `round(alpha*255)` (padded with a leading `'0'` below
16); on any input whose length differs from 7 it returns the input
unchanged, raising no error (the embedding is total). -/
theorem withAlpha_appends_byte (hex : String) (alpha : ℚ) :
    (hex.length = 7 → 0 ≤ alpha → alpha ≤ 1 →
      withAlpha hex alpha
          = hex ++ padStart (natToHex (round (alpha * 255)).toNat) 2 '0' ∧
        (padStart (natToHex (round (alpha * 255)).toNat) 2 '0').length = 2) ∧
    (hex.length ≠ 7 → withAlpha hex alpha = hex) := by
  constructor
  · intro h7 h0 h1
    have hnn := round_alpha_nonneg alpha h0
    have hle := round_alpha_le alpha h1
    constructor
    · unfold withAlpha
      rw [if_pos h7, intToString16_nonneg _ hnn]
    · exact pad2_natToHex_length _ (by omega)
  · intro h7
    unfold withAlpha
    rw [if_neg h7]

/-- Witness for C7: `withAlpha "#1E90FF" 0.6 = "#1E90FF99"`
(`round(0.6*255) = 153 = 0x99`), and the 9-character input `"#1E90FF99"` is
returned unchanged. -/
theorem withAlpha_appends_byte_witness :
    ("#1E90FF".length = 7 ∧ (0:ℚ) ≤ 0.6 ∧ (0.6:ℚ) ≤ 1 ∧
      withAlpha "#1E90FF" 0.6 = "#1E90FF99") ∧
    ("#1E90FF99".length ≠ 7 ∧ withAlpha "#1E90FF99" 0.6 = "#1E90FF99") := by
  constructor
  · refine ⟨by decide, by norm_num, by norm_num, ?_⟩
    have h := ((withAlpha_appends_byte "#1E90FF" 0.6).1 (by decide) (by norm_num) (by norm_num)).1
    rw [h, show round ((0.6:ℚ) * 255) = ((153:ℕ):ℤ) by
      rw [show ((0.6:ℚ) * 255) = ((153:ℕ):ℚ) by norm_num, round_natCast]]
    decide
  · exact ⟨by decide, (withAlpha_appends_byte "#1E90FF99" 0.6).2 (by decide)⟩

/-- The process-wide mutable state of the extension together with the
externally visible configuration it writes, threaded explicitly.
`workspaceColors` is the Workspace-scoped `workbench.colorCustomizations`
value (`none` models an absent override / a `null` write that removed it);
`workspaceFolderColors` and `globalFolderColors` are the Workspace- and
User-scoped `workspaceColorizer.folderColors` settings (`none` = absent). -/
structure SysState where
  originalWorkspaceColors : Option Config
  lastAppliedKey : Option String
  workspaceColors : Option Config
  workspaceFolderColors : Option ColorMap
  globalFolderColors : Option ColorMap
deriving DecidableEq

/-- Model of `setWorkspaceColorCustomizations` (source lines 155-159): write the
given value to the Workspace scope; `none` models `null`, which removes
the override entirely. -/
def setWorkspaceColorCustomizations (s : SysState) (v : Option Config) : SysState :=
  { s with workspaceColors := v }

/-- Model of `clone` (source lines 161-163): a JSON deep copy, which on this
immutable value model is the identity. -/
def clone (c : Config) : Config := c

/-- JS truthiness test `!desired.hex` on a `string | undefined` value:
falsy exactly when absent or the empty string. -/
def jsFalsyStr : Option String → Bool
  | none => true
  | some v => v == ""

/-- The merged override object built in `applyOnce` (source lines 93-108):
a fresh copy of the baseline with the four title-bar keys unconditionally
set and, when `statusBarSync` holds, the two status-bar keys as well. -/
def mergeOverride (base : Config) (hex : String) (syncStatus : Bool) : Config :=
  let t :=
    objSet (objSet (objSet (objSet base
      "titleBar.activeBackground" hex)
      "titleBar.inactiveBackground" (withAlpha hex (0.6 : ℚ)))
      "titleBar.activeForeground" "#ffffff")
      "titleBar.inactiveForeground" "#ffffffcc"
  if syncStatus then
    objSet (objSet t "statusBar.background" hex) "statusBar.foreground" "#ffffff"
  else t

/-- Model of `applyOnce` (source lines 79-112). The values the source reads from the
host during the run — the active context, the freshly read `folderColors`
mapping and the `statusBarSync` flag — are parameters; the returned Boolean
reports whether a configuration write was performed. The restore branch
writes `originalWorkspaceColors ?? null` and records the literal key
`'original'`; the override branch merges onto `clone(original) ?? {}` and
records the desired key. -/
def applyOnce (rt : RegexTest) (ctx : Option String) (map : ColorMap)
    (syncStatus : Bool) (s : SysState) : SysState × Bool :=
  let desired := decideDesiredKeyAndColor rt ctx map
  if s.lastAppliedKey = some desired.key then (s, false)
  else if jsFalsyStr desired.hex then
    let s1 := setWorkspaceColorCustomizations s s.originalWorkspaceColors
    ({ s1 with lastAppliedKey := some "original" }, true)
  else
    let base := (s.originalWorkspaceColors.map clone).getD []
    let next := mergeOverride base (desired.hex.getD "") syncStatus
    let s1 := setWorkspaceColorCustomizations s (some next)
    ({ s1 with lastAppliedKey := some desired.key }, true)

/-- The `workspaceColorizer.reset` command handler (source lines 42-60):
restore the baseline (write it back, or remove the override with `null`
when none was captured), remove `folderColors` from the Workspace scope,
remove it from the User scope, and record `lastAppliedKey = 'original'`. -/
def resetCommand (s : SysState) : SysState :=
  let s1 := setWorkspaceColorCustomizations s s.originalWorkspaceColors
  let s2 := { s1 with workspaceFolderColors := none }
  let s3 := { s2 with globalFolderColors := none }
  { s3 with lastAppliedKey := some "original" }

/-- A sequence of Reconciler runs; each element is what the run observes
from the host (active context, freshly read mapping, `statusBarSync`). -/
def runSteps (rt : RegexTest) (s : SysState) : List (Option String × ColorMap × Bool) → SysState
  | [] => s
  | step :: rest => runSteps rt (applyOnce rt step.1 step.2.1 step.2.2 s).1 rest

lemma applyOnce_eq_of_key (rt : RegexTest) (ctx : Option String) (map : ColorMap)
    (sync : Bool) (s : SysState)
    (h : s.lastAppliedKey = some (decideDesiredKeyAndColor rt ctx map).key) :
    applyOnce rt ctx map sync s = (s, false) := by
  simp only [applyOnce]
  rw [if_pos h]

lemma applyOnce_writes (rt : RegexTest) (ctx : Option String) (map : ColorMap)
    (sync : Bool) (s : SysState)
    (h : ¬ s.lastAppliedKey = some (decideDesiredKeyAndColor rt ctx map).key) :
    (applyOnce rt ctx map sync s).2 = true := by
  simp only [applyOnce]
  rw [if_neg h]
  split <;> rfl

lemma applyOnce_no_write (rt : RegexTest) (ctx : Option String) (map : ColorMap)
    (sync : Bool) (s : SysState)
    (hw : (applyOnce rt ctx map sync s).2 = false) :
    (applyOnce rt ctx map sync s).1 = s := by
  by_cases h : s.lastAppliedKey = some (decideDesiredKeyAndColor rt ctx map).key
  · rw [applyOnce_eq_of_key rt ctx map sync s h]
  · rw [applyOnce_writes rt ctx map sync s h] at hw
    cases hw

lemma applyOnce_preserves_original (rt : RegexTest) (ctx : Option String)
    (map : ColorMap) (sync : Bool) (s : SysState) :
    (applyOnce rt ctx map sync s).1.originalWorkspaceColors
      = s.originalWorkspaceColors := by
  simp only [applyOnce]
  split
  · rfl
  · split <;> rfl

lemma runSteps_preserves_original (rt : RegexTest)
    (steps : List (Option String × ColorMap × Bool)) : ∀ s : SysState,
    (runSteps rt s steps).originalWorkspaceColors = s.originalWorkspaceColors := by
  induction steps with
  | nil => intro s; rfl
  | cons st rest ih =>
    intro s
    rw [runSteps, ih, applyOnce_preserves_original]

lemma resolveLoop_cases (rt : RegexTest) (F : String) : ∀ M : ColorMap,
    resolveLoop rt F M = ⟨"original", none⟩ ∨
      ∃ p c, (p, c) ∈ M ∧ resolveLoop rt F M = ⟨p, some c⟩ := by
  intro M
  induction M with
  | nil => left; rfl
  | cons hd tl ih =>
    obtain ⟨p, c⟩ := hd
    rw [resolveLoop]
    by_cases hl : looksLikeRegex p
    · rw [if_pos hl]
      rcases hr : rt p F with _ | b
      · rcases ih with h | ⟨q, d, hmem, h⟩
        · left; exact h
        · right; exact ⟨q, d, List.mem_cons_of_mem _ hmem, h⟩
      · rcases b with _ | _
        · rcases ih with h | ⟨q, d, hmem, h⟩
          · left; exact h
          · right; exact ⟨q, d, List.mem_cons_of_mem _ hmem, h⟩
        · right; exact ⟨p, c, List.mem_cons_self _ _, rfl⟩
    · rw [if_neg hl]
      rcases ih with h | ⟨q, d, hmem, h⟩
      · left; exact h
      · right; exact ⟨q, d, List.mem_cons_of_mem _ hmem, h⟩

lemma objGet_mem (M : ColorMap) (k v : String) (h : objGet M k = some v) :
    (k, v) ∈ M := by
  unfold objGet at h
  rcases hf : M.find? (fun p => p.1 == k) with _ | p
  · rw [hf] at h; cases h
  · rw [hf] at h
    have hp := List.find?_some hf
    have hmem := List.mem_of_find?_eq_some hf
    have h1 : p.1 = k := by simpa using hp
    have h2 : p.2 = v := by simpa using h
    have : (k, v) = p := by
      cases p
      simp only at h1 h2
      rw [h1, h2]
    rw [this]
    exact hmem

/-- For a mapping whose colour values are all non-empty (the data model's
`#RRGGBB` strings), a falsy desired hex can only come from the sentinel. -/
lemma desired_falsy_key (rt : RegexTest) (ctx : Option String) (map : ColorMap)
    (hwf : ∀ p ∈ map, p.2 ≠ "")
    (h : jsFalsyStr (decideDesiredKeyAndColor rt ctx map).hex = true) :
    (decideDesiredKeyAndColor rt ctx map).key = "original" := by
  cases ctx with
  | none => rfl
  | some name =>
    have hloop : resolveLoop rt name map = ⟨"original", none⟩ ∨
        ∃ p c, (p, c) ∈ map ∧ resolveLoop rt name map = ⟨p, some c⟩ :=
      resolveLoop_cases rt name map
    simp only [decideDesiredKeyAndColor] at h ⊢
    rcases hg : objGet map name with _ | v
    · rw [hg] at h
      replace h : jsFalsyStr (resolveLoop rt name map).hex = true := h
      show (resolveLoop rt name map).key = "original"
      rcases hloop with hl | ⟨p, c, hmem, hl⟩
      · rw [hl]
      · rw [hl] at h
        simp only [jsFalsyStr, beq_iff_eq] at h
        exact absurd h (hwf (p, c) hmem)
    · by_cases hv : v = ""
      · subst hv
        exact absurd (objGet_mem map name "" hg) (by intro hm; exact (hwf _ hm) rfl)
      · rw [hg] at h
        replace h : jsFalsyStr
            (if v = "" then resolveLoop rt name map else ⟨name, some v⟩).hex = true := h
        rw [if_neg hv] at h
        simp only [jsFalsyStr, beq_iff_eq] at h
        exact absurd h hv

lemma lastKey_after_write (rt : RegexTest) (ctx : Option String) (map : ColorMap)
    (sync : Bool) (s : SysState) (hwf : ∀ p ∈ map, p.2 ≠ "")
    (hw : (applyOnce rt ctx map sync s).2 = true) :
    (applyOnce rt ctx map sync s).1.lastAppliedKey
      = some (decideDesiredKeyAndColor rt ctx map).key := by
  by_cases h : s.lastAppliedKey = some (decideDesiredKeyAndColor rt ctx map).key
  · rw [applyOnce_eq_of_key rt ctx map sync s h] at hw
    cases hw
  · simp only [applyOnce]
    rw [if_neg h]
    rcases hfal : jsFalsyStr (decideDesiredKeyAndColor rt ctx map).hex with _ | _
    · simp
    · simp only [if_pos]
      rw [desired_falsy_key rt ctx map hwf hfal]

/-- C3: when the freshly computed desired key equals the stored
`lastAppliedKey`, `applyOnce` stops, performing no configuration write and
leaving the state untouched, whatever the underlying colour values; and,
for a well-formed mapping (all colour values non-empty, as the data model's
`#RRGGBB` strings are) and a run that is not already settled, two
successive runs with no intervening state change perform exactly one
configuration write: the first run writes, the second returns the state
unchanged with no write. -/
theorem key_equality_gates_write (rt : RegexTest) (ctx : Option String)
    (map : ColorMap) (sync : Bool) (s : SysState) :
    (s.lastAppliedKey = some (decideDesiredKeyAndColor rt ctx map).key →
      applyOnce rt ctx map sync s = (s, false)) ∧
    ((∀ p ∈ map, p.2 ≠ "") →
      s.lastAppliedKey ≠ some (decideDesiredKeyAndColor rt ctx map).key →
      (applyOnce rt ctx map sync s).2 = true ∧
      applyOnce rt ctx map sync (applyOnce rt ctx map sync s).1
        = ((applyOnce rt ctx map sync s).1, false)) := by
  constructor
  · exact applyOnce_eq_of_key rt ctx map sync s
  · intro hwf hne
    refine ⟨applyOnce_writes rt ctx map sync s hne, ?_⟩
    exact applyOnce_eq_of_key rt ctx map sync _
      (lastKey_after_write rt ctx map sync s hwf
        (applyOnce_writes rt ctx map sync s hne))

/-- Witness for C3: a fresh state, a folder matching the pattern entry; the
first run writes, the second is a no-op. -/
theorem key_equality_gates_write_witness :
    (applyOnce rtW (some "api-server") [("^api-.*", "#FF6B6B")] true
        ⟨none, none, none, none, none⟩).2 = true ∧
    applyOnce rtW (some "api-server") [("^api-.*", "#FF6B6B")] true
        (applyOnce rtW (some "api-server") [("^api-.*", "#FF6B6B")] true
          ⟨none, none, none, none, none⟩).1
      = ((applyOnce rtW (some "api-server") [("^api-.*", "#FF6B6B")] true
          ⟨none, none, none, none, none⟩).1, false) :=
  (key_equality_gates_write rtW (some "api-server") [("^api-.*", "#FF6B6B")] true
    ⟨none, none, none, none, none⟩).2 (by decide) (by decide)

/-- C4: for a well-formed mapping, whenever `applyOnce` performs a
configuration write — in the restore branch as in the override branch — it
leaves `lastAppliedKey` equal to the desired key it just computed; and when
it performs no write it leaves the whole state untouched, so
`lastAppliedKey` never holds a key that was merely computed. -/
theorem lastAppliedKey_tracks_writes (rt : RegexTest) (ctx : Option String)
    (map : ColorMap) (sync : Bool) (s : SysState) :
    ((∀ p ∈ map, p.2 ≠ "") → (applyOnce rt ctx map sync s).2 = true →
      (applyOnce rt ctx map sync s).1.lastAppliedKey
        = some (decideDesiredKeyAndColor rt ctx map).key) ∧
    ((applyOnce rt ctx map sync s).2 = false →
      (applyOnce rt ctx map sync s).1 = s) :=
  ⟨fun hwf hw => lastKey_after_write rt ctx map sync s hwf hw,
   fun hw => applyOnce_no_write rt ctx map sync s hw⟩

/-- Witness for C4: a run through the restore branch (folder not in the
mapping) writes and records the sentinel key, which is the desired key. -/
theorem lastAppliedKey_tracks_writes_witness :
    (applyOnce rtW (some "plain") [("^api-.*", "#FF6B6B")] true
        ⟨none, some "^api-.*", none, none, none⟩).1.lastAppliedKey
      = some (decideDesiredKeyAndColor rtW (some "plain")
          [("^api-.*", "#FF6B6B")]).key :=
  (lastAppliedKey_tracks_writes rtW (some "plain") [("^api-.*", "#FF6B6B")] true
    ⟨none, some "^api-.*", none, none, none⟩).1 (by decide) (by decide)

/-- C9: the reset command writes the captured baseline back to the
Workspace-scoped `colorCustomizations` (removing the override entirely when
no baseline was captured, `none` modelling `null`), removes `folderColors`
from both the Workspace scope and the User scope, and leaves
`lastAppliedKey = "original"`. -/
theorem reset_restores_and_clears (s : SysState) :
    (resetCommand s).workspaceColors = s.originalWorkspaceColors ∧
    (resetCommand s).workspaceFolderColors = none ∧
    (resetCommand s).globalFolderColors = none ∧
    (resetCommand s).lastAppliedKey = some "original" :=
  ⟨rfl, rfl, rfl, rfl⟩

/-- Counterexample to C5 as stated: with an empty-but-present captured
baseline (`{}`), the restore path writes the empty object back — the code
writes `originalWorkspaceColors ?? null`, and `{}` is not nullish — instead
of removing the override (`null`), which the claim asserts for an empty
baseline. -/
theorem restore_empty_baseline_cex :
    (applyOnce rtW (some "plain") [] true
        ⟨some [], some "k", some [("titleBar.activeBackground", "#FF6B6B")],
          none, none⟩).1.workspaceColors = some [] ∧
    some ([] : Config) ≠ (none : Option Config) :=
  ⟨by decide, by decide⟩

/-- C5 amended: the restore path writes back exactly the captured baseline
value — verbatim when one was captured, even the empty object, and `null`
(removal) precisely when none was captured; since reconciliations never
touch the captured baseline, a restore after any sequence of override
applications leaves the workspace override deep-equal to the baseline
captured at startup, with no applied-override keys remaining. -/
theorem restore_roundtrip (rt : RegexTest)
    (steps : List (Option String × ColorMap × Bool)) (s0 : SysState)
    (F : String) (map : ColorMap) (sync : Bool)
    (hdes : decideDesiredKeyAndColor rt (some F) map = ⟨"original", none⟩)
    (hne : (runSteps rt s0 steps).lastAppliedKey ≠ some "original") :
    (applyOnce rt (some F) map sync (runSteps rt s0 steps)).1.workspaceColors
      = s0.originalWorkspaceColors := by
  have hkey : ¬ (runSteps rt s0 steps).lastAppliedKey
      = some (decideDesiredKeyAndColor rt (some F) map).key := by
    rw [hdes]; exact hne
  simp only [applyOnce]
  rw [if_neg hkey, hdes]
  simp only [jsFalsyStr, if_pos]
  exact runSteps_preserves_original rt steps s0

/-- Witness for C5 amended: one override application, then a restore run on
a folder absent from the mapping reproduces the captured baseline. -/
theorem restore_roundtrip_witness :
    (applyOnce rtW (some "plain") [("^api-.*", "#FF6B6B")] true
        (runSteps rtW ⟨some [("editor.foreground", "#123456")], none, none, none, none⟩
          [(some "api-server", [("^api-.*", "#FF6B6B")], true)])).1.workspaceColors
      = some [("editor.foreground", "#123456")] :=
  restore_roundtrip rtW [(some "api-server", [("^api-.*", "#FF6B6B")], true)]
    ⟨some [("editor.foreground", "#123456")], none, none, none, none⟩
    "plain" [("^api-.*", "#FF6B6B")] true (by decide) (by decide)

lemma objGet_cons (a b : String) (o : Config) (k' : String) :
    objGet ((a, b) :: o) k' = if a = k' then some b else objGet o k' := by
  rw [objGet, List.find?_cons]
  by_cases h : a = k'
  · simp [h]
  · have hb : (a == k') = false := beq_eq_false_iff_ne.mpr h
    simp [h, hb, objGet]

lemma objGet_map_replace (k v k' : String) : ∀ o : Config,
    objGet (o.map (fun p => if p.1 == k then (k, v) else p)) k'
      = if k' = k then (if o.any (fun p => p.1 == k) then some v else none)
        else objGet o k' := by
  intro o
  induction o with
  | nil => by_cases h : k' = k <;> simp [objGet, h]
  | cons hd tl ih =>
    obtain ⟨a, b⟩ := hd
    simp only [List.map_cons, List.any_cons, beq_iff_eq] at ih ⊢
    by_cases hak : a = k
    · subst hak
      by_cases hk' : k' = a
      · subst hk'
        simp [objGet_cons]
      · have hk'2 : ¬ a = k' := fun h => hk' h.symm
        simp [objGet_cons, hk', hk'2, ih]
    · by_cases hk' : k' = k
      · subst hk'
        have hb : (a == k') = false := beq_eq_false_iff_ne.mpr hak
        simp [objGet_cons, hak, ih]
        rw [hb, Bool.false_or]
      · by_cases hax : a = k' <;> simp [objGet_cons, hax, hak, hk', ih]

lemma objGet_append_of_not_any (o : Config) (k v k' : String)
    (hna : o.any (fun p => p.1 == k) = false) :
    objGet (o ++ [(k, v)]) k' = if k' = k then some v else objGet o k' := by
  rw [objGet, List.find?_append]
  by_cases hk' : k' = k
  · subst hk'
    have hnone : o.find? (fun p => p.1 == k') = none := by
      rw [List.find?_eq_none]
      intro x hx
      simpa using List.any_eq_false.mp hna x hx
    rw [hnone]
    simp [List.find?_cons, objGet]
  · rw [if_neg hk']
    have hb : (k == k') = false := beq_eq_false_iff_ne.mpr (fun h => hk' h.symm)
    have hone : List.find? (fun p => p.1 == k') [(k, v)] = none := by
      simp [List.find?_cons, hb]
    rw [hone, objGet]
    cases o.find? (fun p => p.1 == k') <;> rfl

/-- Reading a key after a single-key spread: the written key reads the new
value, every other key reads as in the original object. -/
lemma objGet_objSet (o : Config) (k v k' : String) :
    objGet (objSet o k v) k' = if k' = k then some v else objGet o k' := by
  unfold objSet
  rcases ha : o.any (fun p => p.1 == k) with _ | _
  · rw [if_neg (by simp)]
    exact objGet_append_of_not_any o k v k' ha
  · rw [if_pos rfl, objGet_map_replace]
    by_cases hk' : k' = k <;> simp [hk', ha]

/-- C6: the merged configuration sets exactly the override keys — the four
title-bar keys unconditionally (`activeBackground` = the colour,
`inactiveBackground` = the colour at 60% alpha via `withAlpha`,
`activeForeground` = opaque white `"#ffffff"`, `inactiveForeground` =
`"#ffffffcc"`, white at roughly 80% alpha) plus the two status-bar keys
(`background` = the colour, `foreground` = opaque white) exactly when
`statusBarSync` is enabled — while every other attribute of the baseline
reads unchanged in the result; the merge starts from a fresh copy of the
baseline value, which is itself a pure value here and is never mutated. -/
theorem mergeOverride_sets_exactly (base : Config) (hex : String) (sync : Bool) :
    objGet (mergeOverride base hex sync) "titleBar.activeBackground" = some hex ∧
    objGet (mergeOverride base hex sync) "titleBar.inactiveBackground"
      = some (withAlpha hex (0.6 : ℚ)) ∧
    objGet (mergeOverride base hex sync) "titleBar.activeForeground" = some "#ffffff" ∧
    objGet (mergeOverride base hex sync) "titleBar.inactiveForeground" = some "#ffffffcc" ∧
    objGet (mergeOverride base hex sync) "statusBar.background"
      = (if sync then some hex else objGet base "statusBar.background") ∧
    objGet (mergeOverride base hex sync) "statusBar.foreground"
      = (if sync then some "#ffffff" else objGet base "statusBar.foreground") ∧
    (∀ k, k ∉ ["titleBar.activeBackground", "titleBar.inactiveBackground",
        "titleBar.activeForeground", "titleBar.inactiveForeground",
        "statusBar.background", "statusBar.foreground"] →
      objGet (mergeOverride base hex sync) k = objGet base k) := by
  have hother : ∀ k, k ∉ ["titleBar.activeBackground", "titleBar.inactiveBackground",
      "titleBar.activeForeground", "titleBar.inactiveForeground",
      "statusBar.background", "statusBar.foreground"] →
      objGet (mergeOverride base hex sync) k = objGet base k := by
    intro k hk
    simp only [List.mem_cons, List.not_mem_nil, or_false, not_or] at hk
    obtain ⟨h1, h2, h3, h4, h5, h6⟩ := hk
    cases sync <;> simp [mergeOverride, objGet_objSet, h1, h2, h3, h4, h5, h6]
  cases sync <;>
    exact ⟨by simp [mergeOverride, objGet_objSet], by simp [mergeOverride, objGet_objSet],
      by simp [mergeOverride, objGet_objSet], by simp [mergeOverride, objGet_objSet],
      by simp [mergeOverride, objGet_objSet], by simp [mergeOverride, objGet_objSet], hother⟩

/-- Witness for C6: a one-attribute baseline; the merge sets the title-bar
background and preserves the unrelated attribute. -/
theorem mergeOverride_sets_exactly_witness :
    objGet (mergeOverride [("editor.background", "#000000")] "#FF6B6B" true)
      "titleBar.activeBackground" = some "#FF6B6B" ∧
    objGet (mergeOverride [("editor.background", "#000000")] "#FF6B6B" true)
      "editor.background" = some "#000000" := by
  refine ⟨(mergeOverride_sets_exactly [("editor.background", "#000000")]
    "#FF6B6B" true).1, ?_⟩
  have h := (mergeOverride_sets_exactly [("editor.background", "#000000")]
    "#FF6B6B" true).2.2.2.2.2.2 "editor.background" (by decide)
  rw [h]
  decide

/-- Model of `Math.max(0, debounceMs)` (source line 25): the quiet interval actually
used by `setTimeout`, clamped below at zero. -/
def clampMs (d : Int) : Nat := (max 0 d).toNat

/-- A pending debounce timer: the index of the trigger that armed it with
`setTimeout`, and the instant at which it is due to fire. -/
structure Pending where
  trigIdx : Nat
  fireAt : Nat
deriving DecidableEq

/-- Operational model of the Debounce Scheduler (`scheduleApply`, source
lines 20-26), replayed over a time-ordered list of trigger events `(t, d)`
— the instant of the trigger and the `debounceMs` value freshly read at
that trigger. The scheduler holds at most one pending timer (the single
`applyTimer` variable). A pending timer whose deadline strictly precedes
the next trigger has fired — one Reconciler invocation; otherwise that
trigger's `clearTimeout` cancels it. Either way the trigger arms a fresh
timer due `Math.max(0, d)` units later. After the last trigger, the
pending timer fires if the observation horizon `endTime` reaches its
deadline. The result lists the timers that actually fired, in order. -/
def runScheduler : Nat → Option Pending → Nat → List (Nat × Int) → List Pending
  | _, none, _, [] => []
  | _, some pd, endTime, [] => if pd.fireAt ≤ endTime then [pd] else []
  | i, pending, endTime, (t, d) :: rest =>
    (match pending with
     | some pd => if pd.fireAt < t then [pd] else []
     | none => []) ++ runScheduler (i + 1) (some ⟨i, t + clampMs d⟩) endTime rest

/-- The timer left pending after replaying a list of triggers on top of a
currently pending timer. -/
def finalTimer : Nat → Pending → List (Nat × Int) → Pending
  | _, pd, [] => pd
  | i, _, (t, d) :: rest => finalTimer (i + 1) ⟨i, t + clampMs d⟩ rest

lemma runScheduler_burst (events : List (Nat × Int)) :
    ∀ (i : Nat) (pd : Pending) (T : Nat),
    List.Chain' (fun a b : Nat × Int => b.1 < a.1 + clampMs a.2) events →
    (∀ e ∈ events.head?, e.1 < pd.fireAt) →
    runScheduler i (some pd) T events =
      if (finalTimer i pd events).fireAt ≤ T then [finalTimer i pd events]
      else [] := by
  induction events with
  | nil => intro i pd T _ _; rfl
  | cons e rest ih =>
    obtain ⟨t, d⟩ := e
    intro i pd T hchain hhead
    have hlt : t < pd.fireAt := hhead (t, d) rfl
    have hnf : ¬ pd.fireAt < t := by omega
    have hrest := List.chain'_cons'.mp hchain
    simp only [runScheduler, hnf, if_false, List.nil_append, finalTimer]
    exact ih (i + 1) ⟨i, t + clampMs d⟩ T hrest.2 hrest.1

lemma finalTimer_spec (rest : List (Nat × Int)) : ∀ (i t : Nat) (d : Int),
    finalTimer (i + 1) ⟨i, t + clampMs d⟩ rest
      = ⟨i + rest.length,
         (rest.getLastD (t, d)).1 + clampMs (rest.getLastD (t, d)).2⟩ := by
  induction rest with
  | nil => intro i t d; rfl
  | cons e rest' ih =>
    obtain ⟨t', d'⟩ := e
    intro i t d
    simp only [finalTimer, ih, List.getLastD_cons, List.length_cons,
      Pending.mk.injEq]
    exact ⟨by omega, trivial⟩

/-- C8: the Debounce Scheduler keeps at most one pending timer; every
trigger cancels the pending timer, if any, and arms a new one due after the
clamped quiet interval read at that trigger. For any burst of triggers in
which each trigger arrives strictly before the previously armed deadline,
and any horizon reaching past the last deadline, exactly one Reconciler
invocation results: the timer armed by the last trigger of the burst (index
`length - 1`), firing one quiet interval after the last trigger — hence
observing the state as of the last trigger, never an intermediate one. -/
theorem debounce_collapses_burst (events : List (Nat × Int)) (T : Nat)
    (hne : events ≠ [])
    (hburst : List.Chain' (fun a b : Nat × Int => b.1 < a.1 + clampMs a.2) events)
    (hT : (events.getLastD (0, 0)).1 + clampMs (events.getLastD (0, 0)).2 ≤ T) :
    runScheduler 0 none T events =
      [⟨events.length - 1,
        (events.getLastD (0, 0)).1 + clampMs (events.getLastD (0, 0)).2⟩] := by
  cases events with
  | nil => exact absurd rfl hne
  | cons e rest =>
    obtain ⟨t, d⟩ := e
    have hrest := List.chain'_cons'.mp hburst
    simp only [runScheduler, List.nil_append]
    rw [runScheduler_burst rest 1 ⟨0, t + clampMs d⟩ T hrest.2
      (by simpa using hrest.1)]
    have hft := finalTimer_spec rest 0 t d
    simp only [Nat.zero_add] at hft
    rw [hft] at *
    rw [List.getLastD_cons] at hT
    simp only [List.getLastD_cons, List.length_cons, Nat.add_sub_cancel]
    rw [if_pos hT]

/-- Witness for C8: three triggers at instants 0, 10, 20, each reading the
default quiet interval 80; the timers armed at 0 and 10 are cancelled and
the single invocation is the one armed by the last trigger, at instant
100. -/
theorem debounce_collapses_burst_witness :
    ([(0, (80:Int)), (10, 80), (20, 80)] : List (Nat × Int)) ≠ [] ∧
    List.Chain' (fun a b : Nat × Int => b.1 < a.1 + clampMs a.2)
      [(0, (80:Int)), (10, 80), (20, 80)] ∧
    runScheduler 0 none 200 [(0, (80:Int)), (10, 80), (20, 80)] = [⟨2, 100⟩] := by
  have hchain : List.Chain' (fun a b : Nat × Int => b.1 < a.1 + clampMs a.2)
      [(0, (80:Int)), (10, 80), (20, 80)] := by
    simp only [List.chain'_cons, List.chain'_singleton, and_true]
    exact ⟨by decide, by decide⟩
  refine ⟨by decide, hchain, ?_⟩
  rw [debounce_collapses_burst [(0, (80:Int)), (10, 80), (20, 80)] 200
    (by decide) hchain (by decide)]
  decide

end WorkspaceColorizer
